import Mathlib

/-! # Model of the Thrive engine RNG (src/src/engine/rng.cpp)

The C++ class RNG owns three pieces of state behind a pImpl struct
(RNG::Implementation): m_seed (the stored seed), m_rd (a
std::random_device used only by generateRandomSeed and by the default
constructor), and m_mt (a std::mt19937 engine).  We flatten the pImpl
indirection into a single structure, as it is a pure encapsulation
device.

Modelling choices:

* std::mt19937 is fully specified by the C++ standard [rand.eng.mers];
  we model its state as the list of the last 624 32-bit words (oldest
  first) over Nat, with explicit reduction mod 2 ^ 32 where the 32-bit
  arithmetic wraps, and one state advance per extraction, exactly as the
  standard defines the transition algorithm.  The model reproduces the
  known answer mandated by the standard: the 10000th extraction from a
  generator seeded with 5489 is 4123659995.
* std::random_device is a nondeterministic entropy source; we model it
  as an explicit value stream m_rd : Nat → Nat together with a read
  position m_rdPos, so that entropy nondeterminism becomes universal
  quantification over streams.  Each device read yields a 32-bit value,
  hence the reduction mod 2 ^ 32 at the read.
* std::uniform_int_distribution<int> has an implementation-defined
  mapping from generator output to the requested interval; we model the
  libstdc++ algorithm (down-scaling by integer division with a rejection
  loop, operating on the unsigned common type uint32).  The rejection
  loop is not structurally bounded, so it takes explicit fuel and
  returns none when the fuel runs out after intFuel draws; none models
  the (probability-zero) divergence of the loop, not an error return.
  The widening branch of the libstdc++ code is unreachable for int
  parameters driven by a 32-bit engine, because the unsigned parameter
  range never exceeds the engine range, and is therefore omitted.
* std::uniform_real_distribution<double> (libstdc++) computes
  a + c * (b - a) where c is generate_canonical over two 32-bit draws,
  c = (d1 + d2 * 2 ^ 32) / 2 ^ 64.  We model the real arithmetic exactly
  over ℚ; IEEE-754 rounding is outside the model.  The libstdc++ clamp
  of c to values below 1 is unreachable under exact arithmetic since
  d1, d2 < 2 ^ 32, and is therefore omitted.
* int is 32-bit; the value conversions int → uint32 and uint32 → int
  are toU32 and toI32.
* The luabind registration block in RNG::luaBindings is modelled as the
  registration data it declares: the script-visible class name paired
  with the list of (script name, native member) pairs.
-/

/-- Multiplier of the mt19937 state initialization recurrence
(initialization-multiplier f = 1812433253 in [rand.eng.mers]). -/
def mtF : Nat := 1812433253

/-- Words X_1 .. X_fuel of the mt19937 seeding recurrence
X_i = (f * (X_{i-1} xor (X_{i-1} >> 30)) + i) mod 2 ^ 32,
given X_{i-1} = prev and the current index i. -/
def mtInitAux (prev : Nat) (i : Nat) (fuel : Nat) : List Nat :=
  match fuel with
  | 0 => []
  | fuel + 1 =>
    let x := (mtF * (prev ^^^ (prev >>> 30)) + i) % 2 ^ 32
    x :: mtInitAux x (i + 1) fuel

/-- Initial mt19937 state for a seed: X_0 = seed mod 2 ^ 32 followed by
623 words of the seeding recurrence.  This is what both the
std::mt19937 seed constructor and std::mt19937::seed produce. -/
def mtInit (seed : Nat) : List Nat :=
  let x0 := seed % 2 ^ 32
  x0 :: mtInitAux x0 1 623

/-- Output tempering of mt19937 with the standard parameters
(u, d) = (11, 0xFFFFFFFF), (s, b) = (7, 0x9D2C5680),
(t, c) = (15, 0xEFC60000), l = 18. -/
def temper (y : Nat) : Nat :=
  let y1 := y ^^^ ((y >>> 11) &&& 0xFFFFFFFF)
  let y2 := y1 ^^^ ((y1 <<< 7) &&& 0x9D2C5680)
  let y3 := y2 ^^^ ((y2 <<< 15) &&& 0xEFC60000)
  y3 ^^^ (y3 >>> 18)

/-- One mt19937 state advance and extraction: with the state holding
X_{i-624} .. X_{i-1} (oldest first), form
Y = (X_{i-624} and 2 ^ 31) or (X_{i-623} and (2 ^ 31 - 1)),
X_i = X_{i-227} xor (Y >> 1) xor (a when Y is odd), output temper X_i,
and slide the window to X_{i-623} .. X_i.  Here m = 397, so X_{i-227}
sits at index 397 of the window, and a = 0x9908B0DF. -/
def mtNext (s : List Nat) : Nat × List Nat :=
  let x0 := s.getD 0 0
  let x1 := s.getD 1 0
  let xm := s.getD 397 0
  let y := (x0 &&& 0x80000000) ||| (x1 &&& 0x7FFFFFFF)
  let x := (xm ^^^ (y >>> 1) ^^^ (if y % 2 = 1 then 0x9908B0DF else 0)) % 2 ^ 32
  (temper x, s.tail ++ [x])

/-- Conversion of a C++ int to the unsigned common type uint32 used by
the libstdc++ distribution algorithm (reduction mod 2 ^ 32). -/
def toU32 (i : Int) : Nat := (i % (2 ^ 32 : Int)).toNat

/-- Conversion of a uint32 value back to a C++ int (the value if it fits,
otherwise wrapped by 2 ^ 32, as on every two-complement target). -/
def toI32 (n : Nat) : Int := if n < 2 ^ 31 then (n : Int) else (n : Int) - 2 ^ 32

/-- Rejection loop of the libstdc++ down-scaling branch: draw from the
engine until the draw is below past, returning the accepted draw and the
advanced engine, or none when the fuel is exhausted. -/
def drawBelow (past : Nat) : Nat → List Nat → Option (Nat × List Nat)
  | 0, _ => none
  | fuel + 1, mt =>
    let p := mtNext mt
    if p.1 < past then some p else drawBelow past fuel p.2

/-- Fuel for the rejection loop.  Each iteration rejects with
probability below one half, so 4096 draws fail with probability below
2 ^ (-4096); exhaustion models divergence of the C++ loop. -/
def intFuel : Nat := 4096

/-- std::uniform_int_distribution<int>(mn, mx) applied to an mt19937
engine, following the libstdc++ algorithm: with urange the unsigned
parameter range (uint32 subtraction of the converted bounds) and the
engine range 2 ^ 32 - 1, either down-scale (divide an accepted draw by
scaling = (2 ^ 32 - 1) / (urange + 1)) or, when urange equals the
engine range, use the raw draw; the result is the uint32 sum with the
converted lower bound, converted back to int. -/
def mtGetInt (mn mx : Int) (mt : List Nat) : Option (Int × List Nat) :=
  let urange : Nat := (toU32 mx + 2 ^ 32 - toU32 mn) % 2 ^ 32
  if urange < 2 ^ 32 - 1 then
    let uerange := urange + 1
    let scaling := (2 ^ 32 - 1) / uerange
    match drawBelow (uerange * scaling) intFuel mt with
    | none => none
    | some p => some (toI32 ((p.1 / scaling + toU32 mn) % 2 ^ 32), p.2)
  else
    let p := mtNext mt
    some (toI32 ((p.1 + toU32 mn) % 2 ^ 32), p.2)

/-- std::uniform_real_distribution<double>(mn, mx) applied to an mt19937
engine, in exact rational arithmetic: two draws build the canonical
value c = (d1 + d2 * 2 ^ 32) / 2 ^ 64 in [0, 1), and the result is
mn + c * (mx - mn). -/
def mtGetDouble (mn mx : ℚ) (mt : List Nat) : ℚ × List Nat :=
  let p1 := mtNext mt
  let p2 := mtNext p1.2
  let c : ℚ := ((p1.1 : ℚ) + (p2.1 : ℚ) * 2 ^ 32) / 2 ^ 64
  (mn + c * (mx - mn), p2.2)

/-- Seed type of the RNG class (a 32-bit integer seed value). -/
abbrev Seed : Type := Nat

/-- State of one RNG instance: the fields of RNG::Implementation with
the pImpl indirection flattened.  The std::random_device member is the
stream m_rd together with the read position m_rdPos. -/
structure RNG where
  m_seed : Seed
  m_rd : Nat → Nat
  m_rdPos : Nat
  m_mt : List Nat

/-- RNG::RNG(Seed): store the seed and seed the engine from it; the
entropy device is default-constructed (stream rd, nothing read yet). -/
def RNG.construct (seed : Seed) (rd : Nat → Nat) : RNG :=
  { m_seed := seed, m_rd := rd, m_rdPos := 0, m_mt := mtInit seed }

/-- RNG::RNG(): draw one 32-bit value from the entropy device, store it
as the seed and seed the engine from it. -/
def RNG.constructDefault (rd : Nat → Nat) : RNG :=
  let s := rd 0 % 2 ^ 32
  { m_seed := s, m_rd := rd, m_rdPos := 1, m_mt := mtInit s }

/-- RNG::setSeed: overwrite the stored seed and reseed the engine. -/
def RNG.setSeed (seed : Seed) (r : RNG) : RNG :=
  { r with m_seed := seed, m_mt := mtInit seed }

/-- RNG::getSeed: return the stored seed. -/
def RNG.getSeed (r : RNG) : Seed := r.m_seed

/-- RNG::generateRandomSeed: draw and return one 32-bit value from the
entropy device; only the device read position moves. -/
def RNG.generateRandomSeed (r : RNG) : Seed × RNG :=
  (r.m_rd r.m_rdPos % 2 ^ 32, { r with m_rdPos := r.m_rdPos + 1 })

/-- RNG::getInt: run a freshly constructed
std::uniform_int_distribution<int>(min, max) on the owned engine; only
the engine state changes. -/
def RNG.getInt (mn mx : Int) (r : RNG) : Option (Int × RNG) :=
  (mtGetInt mn mx r.m_mt).map (fun p => (p.1, { r with m_mt := p.2 }))

/-- RNG::getDouble: run a freshly constructed
std::uniform_real_distribution<double>(min, max) on the owned engine;
only the engine state changes. -/
def RNG.getDouble (mn mx : ℚ) (r : RNG) : ℚ × RNG :=
  let p := mtGetDouble mn mx r.m_mt
  (p.1, { r with m_mt := p.2 })

/-- RNG::mersenneTwister: access to the raw engine. -/
def RNG.mersenneTwister (r : RNG) : List Nat := r.m_mt

/-- One scripting-facing sampling call with its arguments. -/
inductive SampleCall where
  | int (mn mx : Int)
  | dbl (mn mx : ℚ)

/-- Observable output of one sampling call. -/
inductive SampleOut where
  | int (v : Option Int)
  | dbl (v : ℚ)

/-- Perform one sampling call on an instance.  A none from the
fuel-exhausted rejection loop is recorded as a none output. -/
def runCall (c : SampleCall) (r : RNG) : SampleOut × RNG :=
  match c with
  | .int mn mx =>
    match RNG.getInt mn mx r with
    | none => (.int none, r)
    | some p => (.int (some p.1), p.2)
  | .dbl mn mx =>
    let p := RNG.getDouble mn mx r
    (.dbl p.1, p.2)

/-- Perform a sequence of sampling calls, collecting the outputs. -/
def runCalls : List SampleCall → RNG → List SampleOut × RNG
  | [], r => ([], r)
  | c :: cs, r =>
    let p := runCall c r
    let q := runCalls cs p.2
    (p.1 :: q.1, q.2)

/-- Native members of the RNG class that the luabind block could refer
to. -/
inductive RNGMethod where
  | getInt
  | getDouble
  | generateRandomSeed
  | setSeed
  | getSeed
  | construct
  | constructDefault
  | mersenneTwister
  deriving DecidableEq

/-- RNG::luaBindings: the registration data declared by the luabind
block, namely the script-visible class name and the list of
(script name, native member) pairs, in declaration order. -/
def RNG.luaBindings : String × List (String × RNGMethod) :=
  ("RNG",
    [("getInt", RNGMethod.getInt),
     ("getReal", RNGMethod.getDouble),
     ("generateRandomSeed", RNGMethod.generateRandomSeed),
     ("setSeed", RNGMethod.setSeed),
     ("getSeed", RNGMethod.getSeed)])

/-- A right shift never increases a natural number. -/
theorem shiftRight_le_self (x k : Nat) : x >>> k ≤ x := by
  rw [Nat.shiftRight_eq_div_pow]
  exact Nat.div_le_self x (2 ^ k)

/-- Xoring a masked value below 2 ^ n keeps a value below 2 ^ n. -/
theorem xorAnd_lt {a b m n : Nat} (ha : a < 2 ^ n) (hm : m < 2 ^ n) :
    a ^^^ (b &&& m) < 2 ^ n :=
  Nat.xor_lt_two_pow ha (Nat.and_lt_two_pow b hm)

/-- Xoring a right shift of itself keeps a value below 2 ^ n. -/
theorem xorShiftRight_lt {a k n : Nat} (ha : a < 2 ^ n) : a ^^^ (a >>> k) < 2 ^ n :=
  Nat.xor_lt_two_pow ha (lt_of_le_of_lt (shiftRight_le_self a k) ha)

/-- Tempering keeps a word below 2 ^ 32. -/
theorem temper_lt {y : Nat} (h : y < 2 ^ 32) : temper y < 2 ^ 32 := by
  simp only [temper]
  exact xorShiftRight_lt (xorAnd_lt (xorAnd_lt (xorAnd_lt h (by norm_num)) (by norm_num))
    (by norm_num))

/-- Every engine extraction is a 32-bit value. -/
theorem mtNext_fst_lt (s : List Nat) : (mtNext s).1 < 2 ^ 32 :=
  temper_lt (Nat.mod_lt _ (by norm_num))

/-- An accepted draw of the rejection loop is below the bound. -/
theorem drawBelow_lt {past : Nat} : ∀ {fuel : Nat} {mt mt2 : List Nat} {x : Nat},
    drawBelow past fuel mt = some (x, mt2) → x < past := by
  intro fuel
  induction fuel with
  | zero => intro mt mt2 x h; simp [drawBelow] at h
  | succ n ih =>
    intro mt mt2 x h
    simp only [drawBelow] at h
    split at h
    case isTrue hc =>
      simp only [Option.some.injEq] at h
      rw [h] at hc
      exact hc
    case isFalse hc => exact ih h

/-- A uint32 read back as an int is a 32-bit signed value. -/
theorem toI32_range {m : Nat} (h : m < 2 ^ 32) : -2 ^ 31 ≤ toI32 m ∧ toI32 m < 2 ^ 31 := by
  simp only [toI32]
  split <;> omega

/-- Any value produced by the integer distribution is a 32-bit signed
value, whatever the bounds were. -/
theorem mtGetInt_val_int32 {mn mx : Int} {mt : List Nat} {v : Int} {mt2 : List Nat}
    (h : mtGetInt mn mx mt = some (v, mt2)) : -2 ^ 31 ≤ v ∧ v < 2 ^ 31 := by
  simp only [mtGetInt] at h
  split at h
  · split at h
    · exact absurd h (by simp)
    · simp only [Option.some.injEq, Prod.mk.injEq] at h
      obtain ⟨hv, -⟩ := h
      rw [← hv]
      exact toI32_range (Nat.mod_lt _ (by norm_num))
  · simp only [Option.some.injEq, Prod.mk.injEq] at h
    obtain ⟨hv, -⟩ := h
    rw [← hv]
    exact toI32_range (Nat.mod_lt _ (by norm_num))

/-- Range correctness of the integer distribution: for int bounds in
order, an answered draw lies in the closed interval. -/
theorem mtGetInt_mem {mn mx : Int} (hlo : -2 ^ 31 ≤ mn) (hle : mn ≤ mx)
    (hhi : mx < 2 ^ 31) {mt : List Nat} {v : Int} {mt2 : List Nat}
    (h : mtGetInt mn mx mt = some (v, mt2)) : mn ≤ v ∧ v ≤ mx := by
  have hU : (toU32 mx + 2 ^ 32 - toU32 mn) % 2 ^ 32 = (mx - mn).toNat := by
    simp only [toU32]
    omega
  simp only [mtGetInt, hU] at h
  split at h
  case isTrue hru =>
    split at h
    case h_1 => exact absurd h (by simp)
    case h_2 p hd =>
      simp only [Option.some.injEq, Prod.mk.injEq] at h
      obtain ⟨hv, -⟩ := h
      have hpast := drawBelow_lt hd
      have hscal : 0 < (2 ^ 32 - 1) / ((mx - mn).toNat + 1) :=
        Nat.div_pos (by omega) (by omega)
      have hret : p.1 / ((2 ^ 32 - 1) / ((mx - mn).toNat + 1)) < (mx - mn).toNat + 1 :=
        (Nat.div_lt_iff_lt_mul hscal).mpr hpast
      rw [← hv]
      generalize p.1 / ((2 ^ 32 - 1) / ((mx - mn).toNat + 1)) = ret at hret
      simp only [toI32, toU32]
      split <;> omega
  case isFalse hru =>
    simp only [Option.some.injEq, Prod.mk.injEq] at h
    obtain ⟨hv, -⟩ := h
    have hm : ((mtNext mt).1 + toU32 mn) % 2 ^ 32 < 2 ^ 32 := Nat.mod_lt _ (by norm_num)
    rw [← hv]
    generalize ((mtNext mt).1 + toU32 mn) % 2 ^ 32 = n at hm
    simp only [toI32, toU32] at hru ⊢
    split <;> omega

/-- Bounds of the real distribution in exact arithmetic: for ordered
bounds the result lies in the closed interval, and strictly below the
upper bound whenever the interval is nonempty. -/
theorem mtGetDouble_fst_bounds {mn mx : ℚ} (h : mn ≤ mx) (mt : List Nat) :
    mn ≤ (mtGetDouble mn mx mt).1 ∧ (mtGetDouble mn mx mt).1 ≤ mx ∧
      (mn < mx → (mtGetDouble mn mx mt).1 < mx) := by
  have h1 := mtNext_fst_lt mt
  have h2 := mtNext_fst_lt (mtNext mt).2
  have c1 : ((mtNext mt).1 : ℚ) ≤ 2 ^ 32 - 1 := by
    have : (mtNext mt).1 ≤ 2 ^ 32 - 1 := by omega
    calc ((mtNext mt).1 : ℚ) ≤ ((2 ^ 32 - 1 : Nat) : ℚ) := by exact_mod_cast this
    _ = 2 ^ 32 - 1 := by norm_num
  have c2 : ((mtNext (mtNext mt).2).1 : ℚ) ≤ 2 ^ 32 - 1 := by
    have : (mtNext (mtNext mt).2).1 ≤ 2 ^ 32 - 1 := by omega
    calc ((mtNext (mtNext mt).2).1 : ℚ) ≤ ((2 ^ 32 - 1 : Nat) : ℚ) := by exact_mod_cast this
    _ = 2 ^ 32 - 1 := by norm_num
  have c0a : (0:ℚ) ≤ ((mtNext mt).1 : ℚ) := by positivity
  have c0b : (0:ℚ) ≤ ((mtNext (mtNext mt).2).1 : ℚ) := by positivity
  simp only [mtGetDouble]
  have hc0 : (0:ℚ) ≤ (((mtNext mt).1 : ℚ) + ((mtNext (mtNext mt).2).1 : ℚ) * 2 ^ 32) / 2 ^ 64 := by
    positivity
  have hc1 : (((mtNext mt).1 : ℚ) + ((mtNext (mtNext mt).2).1 : ℚ) * 2 ^ 32) / 2 ^ 64 < 1 := by
    rw [div_lt_one (by norm_num)]
    linarith [c1, c2]
  have hd : (0:ℚ) ≤ mx - mn := sub_nonneg.mpr h
  refine ⟨?_, ?_, ?_⟩
  · have := mul_nonneg hc0 hd
    linarith
  · have := mul_le_of_le_one_left hd (le_of_lt hc1)
    linarith
  · intro hlt
    have := mul_lt_of_lt_one_left (sub_pos.mpr hlt) hc1
    linarith

/-- A sampling call never touches the stored seed. -/
theorem runCall_m_seed (c : SampleCall) (r : RNG) : (runCall c r).2.m_seed = r.m_seed := by
  cases c with
  | int mn mx =>
    simp only [runCall, RNG.getInt]
    cases h : mtGetInt mn mx r.m_mt with
    | none => simp [h]
    | some p => simp [h]
  | dbl mn mx => simp [runCall, RNG.getDouble]

/-- A sampling call never touches the entropy device. -/
theorem runCall_m_rd (c : SampleCall) (r : RNG) :
    (runCall c r).2.m_rd = r.m_rd ∧ (runCall c r).2.m_rdPos = r.m_rdPos := by
  cases c with
  | int mn mx =>
    simp only [runCall, RNG.getInt]
    cases h : mtGetInt mn mx r.m_mt with
    | none => simp [h]
    | some p => simp [h]
  | dbl mn mx => simp [runCall, RNG.getDouble]

/-- A sequence of sampling calls never touches the stored seed. -/
theorem runCalls_m_seed (cs : List SampleCall) (r : RNG) :
    (runCalls cs r).2.m_seed = r.m_seed := by
  induction cs generalizing r with
  | nil => rfl
  | cons c cs ih =>
    simp only [runCalls]
    rw [ih, runCall_m_seed]

/-- The observable output and engine evolution of one sampling call
depend only on the engine state. -/
theorem runCall_congr {c : SampleCall} {r1 r2 : RNG} (h : r1.m_mt = r2.m_mt) :
    (runCall c r1).1 = (runCall c r2).1 ∧ (runCall c r1).2.m_mt = (runCall c r2).2.m_mt := by
  cases c with
  | int mn mx =>
    simp only [runCall, RNG.getInt, h]
    cases hm : mtGetInt mn mx r2.m_mt with
    | none => simp [hm, h]
    | some p => simp [hm]
  | dbl mn mx => simp [runCall, RNG.getDouble, h]

/-- The observable outputs and engine evolution of a sampling sequence
depend only on the engine state. -/
theorem runCalls_congr {r1 r2 : RNG} (h : r1.m_mt = r2.m_mt) : ∀ cs : List SampleCall,
    (runCalls cs r1).1 = (runCalls cs r2).1 ∧
      (runCalls cs r1).2.m_mt = (runCalls cs r2).2.m_mt := by
  intro cs
  induction cs generalizing r1 r2 with
  | nil => exact ⟨rfl, h⟩
  | cons c cs ih =>
    obtain ⟨ho, hs⟩ := runCall_congr (c := c) h
    obtain ⟨ho2, hs2⟩ := ih hs
    simp only [runCalls]
    exact ⟨by rw [ho, ho2], hs2⟩

/-- C1: for every seed s, two instances constructed with the seeded
constructor RNG(s) — whatever values their separate entropy devices
deliver — produce identical output sequences when issued the same
sequence of getInt/getDouble calls with identical arguments. -/
theorem C1_seeded_two_run_determinism (s : Seed) (rd1 rd2 : Nat → Nat)
    (cs : List SampleCall) :
    (runCalls cs (RNG.construct s rd1)).1 = (runCalls cs (RNG.construct s rd2)).1 :=
  (@runCalls_congr (RNG.construct s rd1) (RNG.construct s rd2) rfl cs).1

/-- C2: calling setSeed(s) on an existing instance, in whatever state,
and then issuing a sampling sequence yields exactly the outputs of a
fresh instance constructed with RNG(s) issued the same calls: setSeed
fully resets the generator state to the seeded-construction state. -/
theorem C2_setSeed_resets (s : Seed) (r : RNG) (rd : Nat → Nat) (cs : List SampleCall) :
    (runCalls cs (RNG.setSeed s r)).1 = (runCalls cs (RNG.construct s rd)).1 :=
  (@runCalls_congr (RNG.setSeed s r) (RNG.construct s rd) rfl cs).1

/-- C3: getSeed returns exactly s right after construction with RNG(s),
and exactly s2 right after setSeed(s2). -/
theorem C3_getSeed_reports_stored_seed (s s2 : Seed) (rd : Nat → Nat) (r : RNG) :
    RNG.getSeed (RNG.construct s rd) = s ∧ RNG.getSeed (RNG.setSeed s2 r) = s2 :=
  ⟨rfl, rfl⟩

/-- C4: for int bounds with min ≤ max and any generator state, a value
answered by getInt(min, max) lies in the closed interval [min, max]. -/
theorem C4_getInt_range (mn mx : Int) (r : RNG) (v : Int)
    (hlo : -2 ^ 31 ≤ mn) (hle : mn ≤ mx) (hhi : mx < 2 ^ 31)
    (h : (RNG.getInt mn mx r).map Prod.fst = some v) : mn ≤ v ∧ v ≤ mx := by
  simp only [RNG.getInt] at h
  rcases hm : mtGetInt mn mx r.m_mt with _ | ⟨a, b⟩
  · rw [hm] at h
    simp at h
  · rw [hm] at h
    simp only [Option.map_some', Option.some.injEq] at h
    exact h ▸ mtGetInt_mem hlo hle hhi hm

set_option maxRecDepth 10000 in
/-- C4 witness: instantiated at bounds (1, 6) on an instance seeded
with 0, where the drawn value is 4. -/
theorem C4_getInt_range_witness :
    (-2 ^ 31 ≤ (1 : Int)) ∧ (1 : Int) ≤ 6 ∧ (6 : Int) < 2 ^ 31 ∧
      ((1 : Int) ≤ 4 ∧ (4 : Int) ≤ 6) :=
  ⟨by norm_num, by norm_num, by norm_num,
    C4_getInt_range 1 6 (RNG.construct 0 (fun _ => 0)) 4 (by norm_num) (by norm_num)
      (by norm_num) (by rfl)⟩

set_option maxRecDepth 10000 in
/-- C5 counterexample: with inverted bounds (min, max) = (5, 3) on an
instance seeded with 0, getInt answers -1937831247: the call neither
behaves as if the bounds were swapped (the value is far outside [3, 5])
nor signals any error, refuting the claimed swap-or-InvalidRange
behaviour at this concrete input. -/
theorem C5_invertedBounds_counterexample :
    (RNG.getInt 5 3 (RNG.construct 0 (fun _ => 0))).map Prod.fst = some (-1937831247) ∧
      ¬((3 : Int) ≤ -1937831247 ∧ (-1937831247 : Int) ≤ 5) :=
  ⟨by rfl, by norm_num⟩

set_option maxRecDepth 10000 in
/-- C5 amended: a call with min > max does not crash but also neither
swaps the bounds nor signals an InvalidRange error: it returns an
ordinary int32 value obtained from the wrapped modular range
computation, and that value can lie outside [max, min], as it does for
(5, 3) from seed 0. -/
theorem C5_invertedBounds_amended :
    (∀ (mn mx : Int) (r : RNG) (v : Int), mx < mn →
      (RNG.getInt mn mx r).map Prod.fst = some v → -2 ^ 31 ≤ v ∧ v < 2 ^ 31) ∧
      (RNG.getInt 5 3 (RNG.construct 0 (fun _ => 0))).map Prod.fst =
        some (-1937831247) ∧
      ((-1937831247 : Int) < 3 ∨ 5 < (-1937831247 : Int)) := by
  refine ⟨?_, by rfl, by norm_num⟩
  intro mn mx r v hlt h
  simp only [RNG.getInt] at h
  rcases hm : mtGetInt mn mx r.m_mt with _ | ⟨a, b⟩
  · rw [hm] at h
    simp at h
  · rw [hm] at h
    simp only [Option.map_some', Option.some.injEq] at h
    exact h ▸ mtGetInt_val_int32 hm

set_option maxRecDepth 10000 in
/-- C5 amended witness: the general part instantiated at the concrete
inverted call (5, 3) from seed 0, whose answer is -1937831247. -/
theorem C5_invertedBounds_amended_witness :
    (3 : Int) < 5 ∧
      (-2 ^ 31 ≤ (-1937831247 : Int) ∧ (-1937831247 : Int) < 2 ^ 31) :=
  ⟨by norm_num,
    C5_invertedBounds_amended.1 5 3 (RNG.construct 0 (fun _ => 0)) (-1937831247)
      (by norm_num) (by rfl)⟩

/-- C6: generateRandomSeed leaves both the stored seed and the
generator state untouched: getSeed answers the same value before and
after, and every subsequent sampling sequence produces the same outputs
as if generateRandomSeed had not been called. -/
theorem C6_generateRandomSeed_frame (r : RNG) (cs : List SampleCall) :
    (RNG.generateRandomSeed r).2.m_seed = r.m_seed ∧
      RNG.getSeed (RNG.generateRandomSeed r).2 = RNG.getSeed r ∧
      (RNG.generateRandomSeed r).2.m_mt = r.m_mt ∧
      (runCalls cs (RNG.generateRandomSeed r).2).1 = (runCalls cs r).1 :=
  ⟨rfl, rfl, rfl, (@runCalls_congr (RNG.generateRandomSeed r).2 r rfl cs).1⟩

/-- C7: every operation that assigns the seed field — seeded
construction, default construction drawing from the entropy device, and
setSeed — leaves the generator in exactly the state obtained by seeding
a fresh engine with the stored seed, so the two never diverge at those
points. -/
theorem C7_seed_engine_invariant (s : Seed) (rd : Nat → Nat) (r : RNG) :
    (RNG.construct s rd).m_mt = mtInit (RNG.construct s rd).m_seed ∧
      (RNG.constructDefault rd).m_mt = mtInit (RNG.constructDefault rd).m_seed ∧
      (RNG.setSeed s r).m_mt = mtInit (RNG.setSeed s r).m_seed :=
  ⟨rfl, rfl, rfl⟩

/-- C8: for rational bounds with min ≤ max and any generator state,
getDouble(min, max) returns a value in [min, max]; the value is
strictly below max whenever min < max (half-open behaviour on nonempty
intervals, closed at max only in the degenerate case min = max). -/
theorem C8_getDouble_range (mn mx : ℚ) (r : RNG) (h : mn ≤ mx) :
    mn ≤ (RNG.getDouble mn mx r).1 ∧ (RNG.getDouble mn mx r).1 ≤ mx ∧
      (mn < mx → (RNG.getDouble mn mx r).1 < mx) := by
  simpa [RNG.getDouble] using mtGetDouble_fst_bounds h r.m_mt

/-- C8 witness: instantiated at bounds (0, 1) on an instance seeded
with 0. -/
theorem C8_getDouble_range_witness :
    (0 : ℚ) ≤ 1 ∧
      (0 ≤ (RNG.getDouble 0 1 (RNG.construct 0 (fun _ => 0))).1 ∧
        (RNG.getDouble 0 1 (RNG.construct 0 (fun _ => 0))).1 ≤ 1 ∧
        ((0 : ℚ) < 1 → (RNG.getDouble 0 1 (RNG.construct 0 (fun _ => 0))).1 < 1)) :=
  ⟨by norm_num, C8_getDouble_range 0 1 (RNG.construct 0 (fun _ => 0)) (by norm_num)⟩

/-- C9: the scripting binding registers exactly five operations under
the class name RNG — getInt to getInt, getReal to getDouble,
generateRandomSeed, setSeed and getSeed — and exposes neither
construction nor the raw-generator accessor. -/
theorem C9_luaBindings_surface :
    RNG.luaBindings.1 = "RNG" ∧
      RNG.luaBindings.2 =
        [("getInt", RNGMethod.getInt), ("getReal", RNGMethod.getDouble),
          ("generateRandomSeed", RNGMethod.generateRandomSeed),
          ("setSeed", RNGMethod.setSeed), ("getSeed", RNGMethod.getSeed)] ∧
      RNG.luaBindings.2.length = 5 ∧
      (∀ p ∈ RNG.luaBindings.2, p.2 ≠ RNGMethod.construct ∧
        p.2 ≠ RNGMethod.constructDefault ∧ p.2 ≠ RNGMethod.mersenneTwister) := by
  refine ⟨rfl, rfl, rfl, ?_⟩
  decide

/-- C10: sampling never touches the stored seed: getSeed answers the
same value after any sequence of getInt/getDouble calls, and each
single getInt or getDouble call preserves the seed field. -/
theorem C10_sampling_preserves_seed (cs : List SampleCall) (r : RNG) (mn mx : Int)
    (mnq mxq : ℚ) :
    RNG.getSeed (runCalls cs r).2 = RNG.getSeed r ∧
      (runCall (SampleCall.int mn mx) r).2.m_seed = r.m_seed ∧
      (runCall (SampleCall.dbl mnq mxq) r).2.m_seed = r.m_seed ∧
      (RNG.getDouble mnq mxq r).2.m_seed = r.m_seed :=
  ⟨runCalls_m_seed cs r, runCall_m_seed _ r, runCall_m_seed _ r, rfl⟩
